import Mathlib

/-!
Verification of the ChatPDF backend core pipeline.

Shallow embedding of the repository's PDF processing core:
  * `app/utils/pdf_exceptions.py`  — error taxonomy (`PdfError`)
  * `app/utils/pdf_validator.py`   — `PDFValidator`
  * `app/utils/pdf_processor.py`   — `PDFProcessor` (extraction, chunking, ranking)
  * `app/utils/retry_handler.py`   — `RetryHandler.retry_async` / `retry_on_failure`
  * `app/api/endpoints/pdf.py`     — upload size gate
  * `app/api/endpoints/query.py`   — persistence / response tail of `query_pdf`

Python strings are modelled as `List Char` (a Python `str` is a sequence of
code points), Python exceptions as `Except PdfError`, and a parsed PDF as the
observations the code makes of PyPDF2: the page list (each page either raises
on `extract_text()` — modelled `none` — or returns a text), the encryption
flag, whether `PdfReader` succeeds, the byte size, and the `%PDF-` signature.
Float arithmetic appears only in `readable_pages < total_pages * 0.5` and in
the backoff delays; `total_pages * 0.5` is exact in binary floating point for
every page count the validator admits (`<= 1000`), so the comparison is
embedded as `2 * readable < total`; delays use exact rationals.
-/

instance {ε α : Type _} [DecidableEq ε] [DecidableEq α] : DecidableEq (Except ε α) :=
  fun x y =>
    match x, y with
    | .ok a, .ok b =>
        if h : a = b then .isTrue (by rw [h])
        else .isFalse (by intro he; cases he; exact h rfl)
    | .error a, .error b =>
        if h : a = b then .isTrue (by rw [h])
        else .isFalse (by intro he; cases he; exact h rfl)
    | .ok _, .error _ => .isFalse (by intro h; cases h)
    | .error _, .ok _ => .isFalse (by intro h; cases h)

/-- Error taxonomy from `app/utils/pdf_exceptions.py`. `retryExhausted`
carries its `__cause__` (the `raise ... from last_exception` in
`retry_handler.py`) as an explicit field. -/
inductive PdfError where
  | processingError : PdfError
  | corrupted : PdfError
  | passwordProtected : PdfError
  | empty : PdfError
  | fileTooLarge (size maxSize : Nat) : PdfError
  | tooManyPages (pages maxPages : Nat) : PdfError
  | invalidMime : PdfError
  | processingTimeout (seconds : Nat) : PdfError
  | partialRead (readable total : Nat) : PdfError
  | retryExhausted (maxRetries : Nat) (cause : PdfError) : PdfError
  deriving DecidableEq, Repr

/-- The `processing_info` dict built by `extract_text_from_pdf` (lines 93-99)
and by the fallback path of `process_pdf_with_fallback` (lines 275-282).
The normal path has no `fallback_used` key; since the only reader uses
`.get(key, False)` semantics, the absent key is modelled as `false`. -/
structure ProcessingInfo where
  total_pages : Nat
  readable_pages : Nat
  text_length : Nat
  validation_passed : Bool
  partial_read : Bool
  fallback_used : Bool
  deriving DecidableEq, Repr

/-- A parsed PDF as observed by the code: `pages` holds, for each page, the
result of `page.extract_text()` (`none` when it raises, which the loops
swallow), plus the flags and sizes the validator inspects. -/
structure PdfDoc where
  size : Nat
  hasMagic : Bool
  parseOk : Bool
  encrypted : Bool
  pages : List (Option (List Char))
  deriving DecidableEq, Repr

/-- Python `str.strip()`: remove leading and trailing whitespace. -/
def trimChars (l : List Char) : List Char :=
  ((l.dropWhile Char.isWhitespace).reverse.dropWhile Char.isWhitespace).reverse

/-- A page counts as readable when `page.extract_text()` returned a text `t`
with `t and t.strip()` truthy, i.e. `t.strip()` non-empty
(`pdf_processor.py` line 75). -/
def pageReadable (p : Option (List Char)) : Bool :=
  match p with
  | none => false
  | some t => decide (trimChars t ≠ [])

/-- The page loop of `extract_text_from_pdf` (lines 72-81): concatenate
`page_text + "\n"` for every readable page, skipping pages that raise or
whose stripped text is empty. -/
def extractedText : List (Option (List Char)) → List Char
  | [] => []
  | none :: ps => extractedText ps
  | some t :: ps =>
      if trimChars t = [] then extractedText ps
      else t ++ '\n' :: extractedText ps

/-- The `readable_pages` counter maintained by the same loop. -/
def readableCount : List (Option (List Char)) → Nat
  | [] => 0
  | none :: ps => readableCount ps
  | some t :: ps => (if trimChars t = [] then 0 else 1) + readableCount ps

/-- `PDFValidator.validate_file_size` (`pdf_validator.py` lines 35-38): the
only rejection is `file_size > max_file_size` (`LargeFileError`, error code
`FILE_TOO_LARGE`); there is no zero-size check in this method. -/
def validate_file_size (maxFileSize : Nat) (fileSize : Nat) : Except PdfError Unit :=
  if fileSize > maxFileSize then .error (.fileTooLarge fileSize maxFileSize) else .ok ()

/-- `PDFValidator.comprehensive_validation` (`pdf_validator.py` lines
134-169): size, magic header, structural parse, page count, encryption, and
content readability, in that order. `validate_content_readability` re-checks
encryption (already known false here) and rejects when no page is readable. -/
def comprehensive_validation (maxFileSize maxPages : Nat) (doc : PdfDoc) :
    Except PdfError Unit := do
  _ ← validate_file_size maxFileSize doc.size
  if !doc.hasMagic then throw .invalidMime
  else if !doc.parseOk then throw .corrupted
  else if doc.pages.length > maxPages then throw (.tooManyPages doc.pages.length maxPages)
  else if doc.encrypted then throw .passwordProtected
  else if readableCount doc.pages = 0 then throw .empty
  else return ()

/-- Body of `PDFProcessor.extract_text_from_pdf` (`pdf_processor.py` lines
41-111), before the `@retry_on_failure` / `@with_timeout` decorators:
comprehensive validation, re-parse, encryption check, page loop, empty-text
check, and the nested partial-read check
(`if readable_pages < total_pages: if readable_pages < total_pages * 0.5`). -/
def extract_text_from_pdf (maxFileSize maxPages : Nat) (doc : PdfDoc) :
    Except PdfError (List Char × ProcessingInfo) := do
  _ ← comprehensive_validation maxFileSize maxPages doc
  if !doc.parseOk then throw .corrupted
  else if doc.encrypted then throw .passwordProtected
  else
    let text := extractedText doc.pages
    let readable := readableCount doc.pages
    let total := doc.pages.length
    if trimChars text = [] then throw .empty
    else if readable < total ∧ 2 * readable < total then
      throw (.partialRead readable total)
    else
      return (trimChars text,
        { total_pages := total, readable_pages := readable,
          text_length := text.length, validation_passed := true,
          partial_read := decide (readable < total), fallback_used := false })

example : extract_text_from_pdf 100 10
    { size := 3, hasMagic := true, parseOk := true, encrypted := false,
      pages := [some ['H'], none, none] } = .error (.partialRead 1 3) := by decide

example : extract_text_from_pdf 100 10
    { size := 3, hasMagic := true, parseOk := true, encrypted := false,
      pages := [some ['H'], some ['i']] } =
    .ok (['H', '\n', 'i'],
      { total_pages := 2, readable_pages := 2, text_length := 4,
        validation_passed := true, partial_read := false,
        fallback_used := false }) := by decide

/-- `RetryHandler.exponential_backoff` (`retry_handler.py` lines 30-33):
`min(base_delay * 2 ** attempt, max_delay)`, exact in rationals. -/
def exponential_backoff (baseDelay maxDelay : ℚ) (attempt : Nat) : ℚ :=
  min (baseDelay * 2 ^ attempt) maxDelay

/-- Observable outcome of one `retry_async` invocation: the value returned or
exception raised, the number of attempts executed, and the sequence of
backoff delays slept between attempts. -/
structure RetryTrace (α : Type _) where
  result : Except PdfError α
  attempts : Nat
  delays : List ℚ
  deriving Repr

/-- The loop of `RetryHandler.retry_async` (`retry_handler.py` lines 50-71),
with `remaining` retries left and `i` the index of the attempt about to run.
Every exception is caught (`except Exception`); after the final failed
attempt the loop falls through to
`raise RetryExhaustedError(self.max_retries) from last_exception`. -/
def retryGo (maxRetries : Nat) (baseDelay maxDelay : ℚ)
    (op : Nat → Except PdfError α) : Nat → Nat → RetryTrace α
  | 0, i =>
      match op i with
      | .ok v => ⟨.ok v, 1, []⟩
      | .error e => ⟨.error (.retryExhausted maxRetries e), 1, []⟩
  | remaining + 1, i =>
      match op i with
      | .ok v => ⟨.ok v, 1, []⟩
      | .error _ =>
          let rest := retryGo maxRetries baseDelay maxDelay op remaining (i + 1)
          ⟨rest.result, rest.attempts + 1,
            exponential_backoff baseDelay maxDelay i :: rest.delays⟩

/-- `RetryHandler(max_retries, base_delay, max_delay).retry_async(op)`:
`for attempt in range(self.max_retries + 1)` starting at attempt 0.
`op` gives the outcome of each attempt by index. -/
def retry_async (maxRetries : Nat) (baseDelay maxDelay : ℚ)
    (op : Nat → Except PdfError α) : RetryTrace α :=
  retryGo maxRetries baseDelay maxDelay op maxRetries 0

/-- `extract_text_from_pdf` as exported by `pdf_processor.py` line 39:
the body wrapped by `@retry_on_failure(max_retries=3, base_delay=1.0)`
(which builds `RetryHandler(3, 1.0)` with default `max_delay=60.0`). The
`@with_timeout` wrapper re-raises the body's exceptions unchanged and its
real-time timeout is outside this model. The body is deterministic, so every
attempt sees the same outcome. -/
def extract_text_from_pdf_retried (maxFileSize maxPages : Nat) (doc : PdfDoc) :
    RetryTrace (List Char × ProcessingInfo) :=
  retry_async 3 1 60 (fun _ => extract_text_from_pdf maxFileSize maxPages doc)

/-- The fallback pass of `process_pdf_with_fallback` (`pdf_processor.py`
lines 257-291): re-read all pages, and if the reclaimed stripped text is
non-empty return it with `fallback_used: True`, else raise `EmptyPDFError`;
any exception in the pass (e.g. `PdfReader` failing) is also converted to
`EmptyPDFError` by the surrounding `except Exception`. -/
def fallbackExtract (doc : PdfDoc) : Except PdfError (List Char × ProcessingInfo) :=
  if !doc.parseOk then .error .empty
  else
    let text := extractedText doc.pages
    if trimChars text = [] then .error .empty
    else
      .ok (trimChars text,
        { total_pages := doc.pages.length, readable_pages := readableCount doc.pages,
          text_length := text.length, validation_passed := true,
          partial_read := true, fallback_used := true })

/-- `PDFProcessor.process_pdf_with_fallback` (`pdf_processor.py` lines
240-295): call the (decorated) `extract_text_from_pdf`; `except
PartialReadError` runs the fallback pass; `except Exception` re-raises. -/
def process_pdf_with_fallback (maxFileSize maxPages : Nat) (doc : PdfDoc) :
    Except PdfError (List Char × ProcessingInfo) :=
  match (extract_text_from_pdf_retried maxFileSize maxPages doc).result with
  | .ok r => .ok r
  | .error (.partialRead _ _) => fallbackExtract doc
  | .error e => .error e

example : (extract_text_from_pdf_retried 100 10
    { size := 3, hasMagic := true, parseOk := true, encrypted := true,
      pages := [some ['H']] }).result =
    .error (.retryExhausted 3 .passwordProtected) := by decide

example : (extract_text_from_pdf_retried 100 10
    { size := 3, hasMagic := true, parseOk := true, encrypted := true,
      pages := [some ['H']] }).attempts = 4 := by decide

example : process_pdf_with_fallback 100 10
    { size := 3, hasMagic := true, parseOk := true, encrypted := false,
      pages := [some ['H'], none, none] } =
    .error (.retryExhausted 3 (.partialRead 1 3)) := by decide

/-- Helper for Python `str.split()`: consume the characters of `l` keeping
the (reversed) current word in `acc`; a whitespace character closes the
current word, and an empty current word is dropped (so runs of whitespace
produce no empty pieces). -/
def splitWsAux : List Char → List Char → List (List Char)
  | [], acc => if acc.isEmpty then [] else [acc.reverse]
  | c :: cs, acc =>
      if c.isWhitespace then
        if acc.isEmpty then splitWsAux cs []
        else acc.reverse :: splitWsAux cs []
      else splitWsAux cs (c :: acc)

/-- Python `str.split()` with no separator (`pdf_processor.py` line 118):
split on runs of whitespace, dropping empty pieces. `Char.isWhitespace`
stands in for Python's whitespace class. -/
def splitWs (l : List Char) : List (List Char) :=
  splitWsAux l []

/-- Python `" ".join(words)` on word character-lists
(`pdf_processor.py` line 122). -/
def joinW (ws : List (List Char)) : List Char :=
  List.intercalate [' '] ws

example : splitWs "  a bc  d ".data = [['a'], ['b', 'c'], ['d']] := by decide
example : joinW [['a'], ['b', 'c']] = ['a', ' ', 'b', 'c'] := by decide

/-- One iteration of the loop `for i in range(0, len(words), step)` of
`PDFProcessor.create_chunks` (`pdf_processor.py` lines 121-123) at the word
level: take the window `words[i : i + size]`, then advance by
`step = chunk_size - chunk_overlap`, i.e. recurse on `words[step:]`. The
`fuel` argument only drives structural recursion; it is always called with
`fuel = words.length`, which suffices because each round drops at least one
word (`chunksFrom_cons` below recovers the fuel-free recurrence). -/
def chunksFromF (size step : Nat) : Nat → List (List Char) → List (List (List Char))
  | _, [] => []
  | 0, _ :: _ => []
  | fuel + 1, w :: ws => ((w :: ws).take size) :: chunksFromF size step fuel ((w :: ws).drop step)

/-- The whole loop of `create_chunks`. A non-positive `step` makes Python's
`range` raise `ValueError`; the processor always uses
`step = 1000 - 200 = 800`, and the `step = 0` guard only serves totality. -/
def chunksFrom (size step : Nat) (words : List (List Char)) : List (List (List Char)) :=
  if step = 0 then [] else chunksFromF size step words.length words

theorem chunksFromF_nilWords (size step : Nat) :
    ∀ fuel, chunksFromF size step fuel [] = [] := by
  intro fuel
  cases fuel <;> rfl

theorem chunksFromF_fuel (size step : Nat) (hstep : step ≠ 0) :
    ∀ fuel₁ fuel₂ (ws : List (List Char)), ws.length ≤ fuel₁ → ws.length ≤ fuel₂ →
      chunksFromF size step fuel₁ ws = chunksFromF size step fuel₂ ws := by
  intro fuel₁
  induction fuel₁ with
  | zero =>
      intro fuel₂ ws h1 _
      have : ws = [] := List.length_eq_zero.mp (Nat.le_zero.mp h1)
      subst this
      rw [chunksFromF_nilWords, chunksFromF_nilWords]
  | succ f ih =>
      intro fuel₂ ws h1 h2
      match ws, fuel₂ with
      | [], _ => rw [chunksFromF_nilWords, chunksFromF_nilWords]
      | w :: t, 0 => simp at h2
      | w :: t, f₂ + 1 =>
          simp only [chunksFromF]
          congr 1
          apply ih
          · simp only [List.length_drop, List.length_cons] at *
            omega
          · simp only [List.length_drop, List.length_cons] at *
            omega

theorem chunksFrom_nil (size step : Nat) : chunksFrom size step [] = [] := by
  unfold chunksFrom
  split <;> rfl

/-- The fuel-free recurrence satisfied by `chunksFrom`, matching the Python
loop directly. -/
theorem chunksFrom_cons (size step : Nat) (hstep : step ≠ 0)
    (ws : List (List Char)) (hws : ws ≠ []) :
    chunksFrom size step ws = ws.take size :: chunksFrom size step (ws.drop step) := by
  unfold chunksFrom
  simp only [hstep, if_false]
  match ws, hws with
  | w :: t, _ =>
      simp only [List.length_cons, chunksFromF]
      congr 1
      apply chunksFromF_fuel size step hstep
      · simp only [List.length_drop, List.length_cons]
        omega
      · simp

/-- `PDFProcessor.create_chunks` (`pdf_processor.py` lines 113-130) with the
chunk size and overlap configurable as in the spec; the processor constructs
itself with `chunk_size = 1000`, `chunk_overlap = 200` (lines 31-32). Each
window of `chunk_size` words is joined with single spaces. -/
def create_chunks (size overlap : Nat) (text : List Char) : List (List Char) :=
  (chunksFrom size (size - overlap) (splitWs text)).map joinW

example : create_chunks 3 1 "a b c d e".data =
    [['a', ' ', 'b', ' ', 'c'], ['c', ' ', 'd', ' ', 'e'], ['e']] := by decide
example : create_chunks 1000 200 [] = [] := by decide
example : create_chunks 1000 200 [' '] = [] := by decide

/-- `np.argsort(similarities)` (`pdf_processor.py` line 183): the indices of
`similarities`, reordered so that the scores they point at are ascending.
Modelled with Mathlib's stable `insertionSort`; every statement proved below
holds for any correct ascending sort, and the counterexamples use pairwise
distinct scores, where the result is unique. -/
def npArgsort (sims : List ℚ) : List Nat :=
  List.insertionSort (fun i j => sims.getD i 0 ≤ sims.getD j 0) (List.range sims.length)

/-- Python slice `l[-k:]` for a non-negative `k` (`pdf_processor.py` line
183): for `k ≥ 1` the last `min k (length l)` elements; for `k = 0`,
`-0 == 0`, so `l[-0:] = l[0:]` is the whole list. -/
def lastSlice (k : Nat) (l : List α) : List α :=
  if k = 0 then l else l.drop (l.length - k)

/-- `top_indices = np.argsort(similarities)[-top_k:]`
(`pdf_processor.py` line 183). -/
def rankIndices (sims : List ℚ) (top_k : Nat) : List Nat :=
  lastSlice top_k (npArgsort sims)

/-- `PDFProcessor.find_relevant_chunks` (`pdf_processor.py` lines 146-191),
parameterised by the embedding provider `embed` (the external
sentence-transformers call behind `get_embeddings`; a per-call
`@retry_on_failure` does not change the outcome of a deterministic provider)
and by the scoring function `sim` standing for sklearn's
`cosine_similarity([q], [c])[0][0]`. Per-chunk embedding failures are
swallowed and the chunk skipped (lines 160-167); if no chunk embedding
succeeds the call fails; the final comprehension
`[chunks[i] for i in top_indices if i < len(chunks)]` is the guarded
indexing of line 184. The surrounding `except Exception` re-raises every
failure as a `PDFProcessingError`, modelled by the single
`processingError`. -/
def find_relevant_chunks (embed : List Char → Except PdfError (List ℚ))
    (sim : List ℚ → List ℚ → ℚ) (query : List Char) (chunks : List (List Char))
    (top_k : Nat) : Except PdfError (List (List Char)) :=
  if chunks.isEmpty then .ok []
  else
    match embed query with
    | .error _ => .error .processingError
    | .ok queryEmbedding =>
        let chunkEmbeddings := chunks.filterMap (fun c => (embed c).toOption)
        if chunkEmbeddings.isEmpty then .error .processingError
        else
          let similarities := chunkEmbeddings.map (fun ce => sim queryEmbedding ce)
          let topIndices := rankIndices similarities top_k
          .ok ((topIndices.filter (fun i => i < chunks.length)).map
            (fun i => chunks.getD i []))

/-- Exact dot product on rational vectors. For the unit-length vectors used
in the concrete counterexamples below, sklearn's
`cosine_similarity(u, v) = (u . v) / (|u| |v|)` equals the dot product
exactly, so no square root is needed. -/
def dotQ (u v : List ℚ) : ℚ :=
  (List.zipWith (fun a b => a * b) u v).sum

example :
    find_relevant_chunks
      (fun s => if s = ['b'] then .ok [0, 1] else .ok [1, 0]) dotQ
      ['q'] [['a'], ['b']] 3 = .ok [['b'], ['a']] := by
  have h1 : dotQ [1, 0] [1, 0] = 1 := by norm_num [dotQ]
  have h2 : dotQ [1, 0] [0, 1] = 0 := by norm_num [dotQ]
  simp only [find_relevant_chunks, List.filterMap, Except.toOption, List.map,
    List.cons.injEq, Char.reduceEq, and_true, and_false, if_false, if_true,
    ite_false, ite_true]
  simp only [h1, h2]
  decide

example :
    find_relevant_chunks
      (fun s => if s = ['b'] then .ok [0, 1] else .ok [1, 0]) dotQ
      ['q'] [['a'], ['b']] 0 = .ok [['b'], ['a']] := by
  have h1 : dotQ [1, 0] [1, 0] = 1 := by norm_num [dotQ]
  have h2 : dotQ [1, 0] [0, 1] = 0 := by norm_num [dotQ]
  simp only [find_relevant_chunks, List.filterMap, Except.toOption, List.map,
    List.cons.injEq, Char.reduceEq, and_true, and_false, if_false, if_true,
    ite_false, ite_true]
  simp only [h1, h2]
  decide

/-- A FastAPI `HTTPException(status_code, detail)`. -/
structure HttpError where
  status : Nat
  detail : String
  deriving DecidableEq, Repr

/-- The inline size gate of the `upload_pdf` endpoint (`pdf.py` lines 42-47):
reject with HTTP 413 when `file_size == 0 or file_size > 50 * 1024 * 1024`.
This endpoint check — not `PDFValidator.validate_file_size` — is what a
0-byte upload hits. -/
def upload_pdf_size_check (fileSize : Nat) : Except HttpError Unit :=
  if fileSize = 0 ∨ fileSize > 50 * 1024 * 1024 then
    .error ⟨413, "File size invalid or too large (max 50MB)"⟩
  else
    .ok ()

/-- The successful response body of `query_pdf` (`query.py` lines 200-206),
restricted to the fields the persistence claim concerns. -/
structure QueryResponseOut where
  id : String
  pdf_id : String
  query : String
  response : String
  deriving DecidableEq, Repr

/-- The persistence/response tail of the `query_pdf` endpoint (`query.py`
lines 183-216) after an answer `responseText` has been generated.
`insertOutcome` is the outcome of `MongoDB.db.queries.insert_one`; on
failure the handler only logs (lines 195-198), so the local variable
`result` is never bound, and the subsequent
`return {"id": str(result.inserted_id), ...}` (line 201) raises a
`NameError`, which the endpoint-wide `except Exception` (lines 211-216)
turns into HTTP 500. The `Option` models the bound-or-unbound variable. -/
def query_save_and_respond (pdfId queryText responseText : String)
    (insertOutcome : Except String String) : Except HttpError QueryResponseOut :=
  let result : Option String :=
    match insertOutcome with
    | .ok insertedId => some insertedId
    | .error _ => none
  match result with
  | some insertedId => .ok ⟨insertedId, pdfId, queryText, responseText⟩
  | none =>
      .error ⟨500,
        "An unexpected error occurred while processing your query. Please try again later."⟩

theorem extractedText_eq_nil_of_readableCount_eq_zero :
    ∀ ps : List (Option (List Char)), readableCount ps = 0 → extractedText ps = [] := by
  intro ps h
  induction ps with
  | nil => rfl
  | cons p t ih =>
      cases p with
      | none =>
          simp only [readableCount] at h
          simpa only [extractedText] using ih h
      | some s =>
          simp only [readableCount] at h
          by_cases hs : trimChars s = []
          · simp only [extractedText, if_pos hs]
            simp only [if_pos hs, Nat.zero_add] at h
            exact ih h
          · simp only [if_neg hs] at h
            omega

theorem readableCount_ne_zero_of_text (doc : PdfDoc)
    (h : trimChars (extractedText doc.pages) ≠ []) : readableCount doc.pages ≠ 0 := by
  intro hz
  rw [extractedText_eq_nil_of_readableCount_eq_zero doc.pages hz] at h
  exact h rfl

theorem comprehensive_validation_ok (maxFileSize maxPages : Nat) (doc : PdfDoc)
    (h1 : doc.size ≤ maxFileSize) (h2 : doc.hasMagic = true) (h3 : doc.parseOk = true)
    (h4 : doc.pages.length ≤ maxPages) (h5 : doc.encrypted = false)
    (h6 : readableCount doc.pages ≠ 0) :
    comprehensive_validation maxFileSize maxPages doc = .ok () := by
  unfold comprehensive_validation validate_file_size
  have hs : ¬ doc.size > maxFileSize := by omega
  have hp : ¬ doc.pages.length > maxPages := by omega
  simp [hs, hp, h2, h3, h5, h6]

/-- On a validated document whose stripped concatenated text is non-empty
and where fewer than half the pages are readable, the extraction body
raises `PartialReadError(readable, total)`. -/
theorem extract_partial (maxFileSize maxPages : Nat) (doc : PdfDoc)
    (h1 : doc.size ≤ maxFileSize) (h2 : doc.hasMagic = true) (h3 : doc.parseOk = true)
    (h4 : doc.pages.length ≤ maxPages) (h5 : doc.encrypted = false)
    (h6 : trimChars (extractedText doc.pages) ≠ [])
    (h7 : 2 * readableCount doc.pages < doc.pages.length) :
    extract_text_from_pdf maxFileSize maxPages doc =
      .error (.partialRead (readableCount doc.pages) doc.pages.length) := by
  have hrc := readableCount_ne_zero_of_text doc h6
  unfold extract_text_from_pdf
  rw [comprehensive_validation_ok maxFileSize maxPages doc h1 h2 h3 h4 h5 hrc]
  have hlt : readableCount doc.pages < doc.pages.length := by omega
  simp [h3, h5, h6, hlt, h7]
  rfl

/-- On a validated document whose stripped concatenated text is non-empty
and where at least half the pages are readable, the extraction body returns
the stripped text and the processing info of lines 93-99. -/
theorem extract_ok (maxFileSize maxPages : Nat) (doc : PdfDoc)
    (h1 : doc.size ≤ maxFileSize) (h2 : doc.hasMagic = true) (h3 : doc.parseOk = true)
    (h4 : doc.pages.length ≤ maxPages) (h5 : doc.encrypted = false)
    (h6 : trimChars (extractedText doc.pages) ≠ [])
    (h7 : doc.pages.length ≤ 2 * readableCount doc.pages) :
    extract_text_from_pdf maxFileSize maxPages doc =
      .ok (trimChars (extractedText doc.pages),
        { total_pages := doc.pages.length,
          readable_pages := readableCount doc.pages,
          text_length := (extractedText doc.pages).length,
          validation_passed := true,
          partial_read := decide (readableCount doc.pages < doc.pages.length),
          fallback_used := false }) := by
  have hrc := readableCount_ne_zero_of_text doc h6
  unfold extract_text_from_pdf
  rw [comprehensive_validation_ok maxFileSize maxPages doc h1 h2 h3 h4 h5 hrc]
  have hnp : ¬ (readableCount doc.pages < doc.pages.length ∧
      2 * readableCount doc.pages < doc.pages.length) := by omega
  simp [h3, h5, h6, hnp, Except.bind]

/-- C5: for every extraction whose concatenated trimmed text is non-empty
(on a document that passes validation), the extraction body fails with
`PartialReadError(readable, total)` exactly when
`readable_pages * 2 < total_pages`; when `readable_pages * 2 >=
total_pages` it returns the stripped text with processing info whose
`partial_read` equals `readable_pages < total_pages`. -/
theorem C5_partial_threshold (maxFileSize maxPages : Nat) (doc : PdfDoc)
    (h1 : doc.size ≤ maxFileSize) (h2 : doc.hasMagic = true) (h3 : doc.parseOk = true)
    (h4 : doc.pages.length ≤ maxPages) (h5 : doc.encrypted = false)
    (h6 : trimChars (extractedText doc.pages) ≠ []) :
    (2 * readableCount doc.pages < doc.pages.length →
      extract_text_from_pdf maxFileSize maxPages doc =
        .error (.partialRead (readableCount doc.pages) doc.pages.length)) ∧
    (doc.pages.length ≤ 2 * readableCount doc.pages →
      extract_text_from_pdf maxFileSize maxPages doc =
        .ok (trimChars (extractedText doc.pages),
          { total_pages := doc.pages.length,
            readable_pages := readableCount doc.pages,
            text_length := (extractedText doc.pages).length,
            validation_passed := true,
            partial_read := decide (readableCount doc.pages < doc.pages.length),
            fallback_used := false })) :=
  ⟨fun h7 => extract_partial maxFileSize maxPages doc h1 h2 h3 h4 h5 h6 h7,
   fun h7 => extract_ok maxFileSize maxPages doc h1 h2 h3 h4 h5 h6 h7⟩

/-- Witness for C5 at a concrete 3-page document with 1 readable page. -/
theorem C5_partial_threshold_witness :
    extract_text_from_pdf 100 10
      { size := 3, hasMagic := true, parseOk := true, encrypted := false,
        pages := [some ['H'], none, none] } = .error (.partialRead 1 3) :=
  (C5_partial_threshold 100 10
    { size := 3, hasMagic := true, parseOk := true, encrypted := false,
      pages := [some ['H'], none, none] }
    (by decide) (by decide) (by decide) (by decide) (by decide) (by decide)).1
    (by decide)

/-- C2 (the claim fails on the code): whenever the extraction body raises —
including the validation and integrity errors `PasswordProtectedPDFError`,
`EmptyPDFError`, `CorruptedPDFError` — the `@retry_on_failure(max_retries=3)`
wrapper around `extract_text_from_pdf` catches the bare `Exception`, retries
until exhaustion (4 attempts, with backoff sleeps of 1, 2 and 4 seconds) and
raises `RetryExhaustedError` wrapping the error, instead of propagating it
immediately after a single attempt. -/
theorem C2_validation_errors_retried (maxFileSize maxPages : Nat) (doc : PdfDoc)
    (e : PdfError) (h : extract_text_from_pdf maxFileSize maxPages doc = .error e) :
    (extract_text_from_pdf_retried maxFileSize maxPages doc).result =
        .error (.retryExhausted 3 e) ∧
    (extract_text_from_pdf_retried maxFileSize maxPages doc).attempts = 4 ∧
    (extract_text_from_pdf_retried maxFileSize maxPages doc).delays =
      [exponential_backoff 1 60 0, exponential_backoff 1 60 1, exponential_backoff 1 60 2] := by
  unfold extract_text_from_pdf_retried retry_async
  simp [retryGo, h]

/-- Witness for C2 at a concrete password-protected document. -/
theorem C2_validation_errors_retried_witness :
    extract_text_from_pdf 100 10
      { size := 3, hasMagic := true, parseOk := true, encrypted := true,
        pages := [some ['H']] } = .error .passwordProtected ∧
    ((extract_text_from_pdf_retried 100 10
        { size := 3, hasMagic := true, parseOk := true, encrypted := true,
          pages := [some ['H']] }).result =
        .error (.retryExhausted 3 .passwordProtected) ∧
      (extract_text_from_pdf_retried 100 10
        { size := 3, hasMagic := true, parseOk := true, encrypted := true,
          pages := [some ['H']] }).attempts = 4 ∧
      (extract_text_from_pdf_retried 100 10
        { size := 3, hasMagic := true, parseOk := true, encrypted := true,
          pages := [some ['H']] }).delays =
        [exponential_backoff 1 60 0, exponential_backoff 1 60 1,
          exponential_backoff 1 60 2]) :=
  ⟨by decide,
   C2_validation_errors_retried 100 10
     { size := 3, hasMagic := true, parseOk := true, encrypted := true,
       pages := [some ['H']] } .passwordProtected (by decide)⟩

/-- C1 (the claim fails on the code): on the PartialContent condition
(non-empty recovered text, fewer than half the pages readable), the inner
extraction raises `PartialReadError`, but the `@retry_on_failure` decorator
retries it and re-raises `RetryExhaustedError`; the `except PartialReadError`
handler of `process_pdf_with_fallback` therefore never matches, its fallback
pass is unreachable, and the call fails with `RetryExhaustedError` instead of
returning the recovered text with `fallback_used = true`. -/
theorem C1_fallback_unreachable (maxFileSize maxPages : Nat) (doc : PdfDoc)
    (h1 : doc.size ≤ maxFileSize) (h2 : doc.hasMagic = true) (h3 : doc.parseOk = true)
    (h4 : doc.pages.length ≤ maxPages) (h5 : doc.encrypted = false)
    (h6 : trimChars (extractedText doc.pages) ≠ [])
    (h7 : 2 * readableCount doc.pages < doc.pages.length) :
    process_pdf_with_fallback maxFileSize maxPages doc =
      .error (.retryExhausted 3 (.partialRead (readableCount doc.pages) doc.pages.length)) := by
  have hb := extract_partial maxFileSize maxPages doc h1 h2 h3 h4 h5 h6 h7
  unfold process_pdf_with_fallback extract_text_from_pdf_retried retry_async
  simp [retryGo, hb]

/-- Witness for C1 at a concrete 3-page document with 1 readable page and
non-empty recovered text. -/
theorem C1_fallback_unreachable_witness :
    process_pdf_with_fallback 100 10
      { size := 3, hasMagic := true, parseOk := true, encrypted := false,
        pages := [some ['H'], none, none] } =
      .error (.retryExhausted 3 (.partialRead 1 3)) :=
  C1_fallback_unreachable 100 10
    { size := 3, hasMagic := true, parseOk := true, encrypted := false,
      pages := [some ['H'], none, none] }
    (by decide) (by decide) (by decide) (by decide) (by decide) (by decide) (by decide)

/-- C3 (the claim fails on the code): when persisting the generated answer
fails, `query_pdf` does not return the answer: the `except` handler only
logs, leaving the local variable `result` unbound, and the return statement
then raises `NameError`, which surfaces as the generic HTTP 500. When the
insert succeeds, the answer is returned. -/
theorem C3_persist_failure_fails_request (pdfId queryText responseText errMsg
    insertedId : String) :
    query_save_and_respond pdfId queryText responseText (.error errMsg) =
      .error ⟨500,
        "An unexpected error occurred while processing your query. Please try again later."⟩ ∧
    query_save_and_respond pdfId queryText responseText (.ok insertedId) =
      .ok ⟨insertedId, pdfId, queryText, responseText⟩ :=
  ⟨rfl, rfl⟩

/-- C8 counterexample: `PDFValidator.validate_file_size` accepts a 0-byte
file — the claimed `size == 0` rejection is absent from the Validator
method. -/
theorem C8_zero_size_accepted_by_validator :
    validate_file_size (50 * 1024 * 1024) 0 = .ok () := rfl

/-- C8 (amended): the Validator's size check fails with `FileTooLarge`
exactly when `size > max_size` (and accepts `size == 0`); the rejection of a
0-byte upload happens in the `upload_pdf` endpoint's inline check, which
fails with the HTTP 413 invalid-size/too-large error exactly when
`size == 0 or size > 50 MiB`. -/
theorem C8_size_checks (maxFileSize fileSize : Nat) :
    (validate_file_size maxFileSize fileSize =
        .error (.fileTooLarge fileSize maxFileSize) ↔ fileSize > maxFileSize) ∧
    (upload_pdf_size_check fileSize =
        .error ⟨413, "File size invalid or too large (max 50MB)"⟩ ↔
      (fileSize = 0 ∨ fileSize > 50 * 1024 * 1024)) := by
  constructor
  · by_cases h : fileSize > maxFileSize
    · simp [validate_file_size, h]
    · simp [validate_file_size, h]
  · by_cases h : fileSize = 0 ∨ fileSize > 50 * 1024 * 1024
    · simp [upload_pdf_size_check, h]
    · simp [upload_pdf_size_check, h]

theorem retryGo_attempts_pos (mr : Nat) (b M : ℚ) (op : Nat → Except PdfError α) :
    ∀ r i, 1 ≤ (retryGo mr b M op r i).attempts := by
  intro r i
  cases r with
  | zero => cases hop : op i <;> simp [retryGo, hop]
  | succ r => cases hop : op i <;> simp [retryGo, hop]

/-- Full characterisation of the `retry_async` loop from any start index. -/
theorem retryGo_spec (mr : Nat) (b M : ℚ) (op : Nat → Except PdfError α) :
    ∀ r i,
      ((retryGo mr b M op r i).attempts ≤ r + 1) ∧
      ((retryGo mr b M op r i).delays =
        (List.range ((retryGo mr b M op r i).attempts - 1)).map
          (fun j => exponential_backoff b M (i + j))) ∧
      ((∃ k, k ≤ r ∧ (∀ j, j < k → ∃ e, op (i + j) = .error e) ∧
          (∃ v, op (i + k) = .ok v ∧ (retryGo mr b M op r i).result = .ok v) ∧
          (retryGo mr b M op r i).attempts = k + 1) ∨
        ((∀ j, j ≤ r → ∃ e, op (i + j) = .error e) ∧
          (∃ e, op (i + r) = .error e ∧
            (retryGo mr b M op r i).result = .error (.retryExhausted mr e)) ∧
          (retryGo mr b M op r i).attempts = r + 1)) := by
  intro r
  induction r with
  | zero =>
      intro i
      cases hop : op i with
      | ok v =>
          refine ⟨by simp [retryGo, hop], by simp [retryGo, hop], .inl ⟨0, ?_, ?_, ?_, ?_⟩⟩
          · omega
          · intro j hj; omega
          · exact ⟨v, by simpa using hop, by simp [retryGo, hop]⟩
          · simp [retryGo, hop]
      | error e =>
          refine ⟨by simp [retryGo, hop], by simp [retryGo, hop], .inr ⟨?_, ?_, ?_⟩⟩
          · intro j hj
            have : j = 0 := by omega
            subst this
            exact ⟨e, by simpa using hop⟩
          · exact ⟨e, by simpa using hop, by simp [retryGo, hop]⟩
          · simp [retryGo, hop]
  | succ r ih =>
      intro i
      cases hop : op i with
      | ok v =>
          refine ⟨by simp [retryGo, hop], by simp [retryGo, hop], .inl ⟨0, ?_, ?_, ?_, ?_⟩⟩
          · omega
          · intro j hj; omega
          · exact ⟨v, by simpa using hop, by simp [retryGo, hop]⟩
          · simp [retryGo, hop]
      | error e0 =>
          obtain ⟨iha, ihd, ihres⟩ := ih (i + 1)
          have hpos := retryGo_attempts_pos mr b M op r (i + 1)
          refine ⟨?_, ?_, ?_⟩
          · simp only [retryGo, hop]
            omega
          · simp only [retryGo, hop]
            obtain ⟨n, hn⟩ : ∃ n, (retryGo mr b M op r (i + 1)).attempts = n + 1 :=
              ⟨(retryGo mr b M op r (i + 1)).attempts - 1, by omega⟩
            rw [ihd, hn]
            simp only [Nat.add_sub_cancel, List.range_succ_eq_map, List.map_cons,
              List.map_map]
            congr 1
            apply List.map_congr_left
            intro j _
            simp only [Function.comp_apply]
            have h2 : i + 1 + j = i + (j + 1) := by omega
            rw [h2]
          · rcases ihres with ⟨k, hk, hfail, ⟨v, hopk, hres⟩, hatt⟩ | ⟨hall, ⟨e, hope, hres⟩, hatt⟩
            · refine .inl ⟨k + 1, by omega, ?_, ?_, ?_⟩
              · intro j hj
                cases j with
                | zero => exact ⟨e0, by simpa using hop⟩
                | succ j' =>
                    have : i + (j' + 1) = i + 1 + j' := by omega
                    rw [this]
                    exact hfail j' (by omega)
              · refine ⟨v, ?_, ?_⟩
                · have : i + (k + 1) = i + 1 + k := by omega
                  rw [this]; exact hopk
                · simp only [retryGo, hop]; exact hres
              · simp only [retryGo, hop]; omega
            · refine .inr ⟨?_, ?_, ?_⟩
              · intro j hj
                cases j with
                | zero => exact ⟨e0, by simpa using hop⟩
                | succ j' =>
                    have : i + (j' + 1) = i + 1 + j' := by omega
                    rw [this]
                    exact hall j' (by omega)
              · refine ⟨e, ?_, ?_⟩
                · have : i + (r + 1) = i + 1 + r := by omega
                  rw [this]; exact hope
                · simp only [retryGo, hop]; exact hres
              · simp only [retryGo, hop]; omega

/-- C7: `retry_async` makes at most `max_retries` additional attempts
(at most `max_retries + 1` in total), sleeping
`min(base_delay * 2 ^ attempt, max_delay)` after failed attempt `attempt`;
if some attempt succeeds its result is returned (first conjunct of the
disjunction), otherwise it fails with `RetryExhausted` wrapping the last
underlying error; and in particular an operation failing twice then
succeeding, run with `max_retries = 3`, returns the success with exactly 3
attempts observed. -/
theorem C7_retry_contract {α : Type} (mr : Nat) (b M : ℚ) (op : Nat → Except PdfError α) :
    ((retry_async mr b M op).attempts ≤ mr + 1) ∧
    ((retry_async mr b M op).delays =
      (List.range ((retry_async mr b M op).attempts - 1)).map (exponential_backoff b M)) ∧
    ((∃ k, k ≤ mr ∧ (∀ j, j < k → ∃ e, op j = .error e) ∧
        (∃ v, op k = .ok v ∧ (retry_async mr b M op).result = .ok v) ∧
        (retry_async mr b M op).attempts = k + 1) ∨
      ((∀ j, j ≤ mr → ∃ e, op j = .error e) ∧
        (∃ e, op mr = .error e ∧
          (retry_async mr b M op).result = .error (.retryExhausted mr e)) ∧
        (retry_async mr b M op).attempts = mr + 1)) ∧
    ((retry_async 3 1 60
        (fun i => if i < 2 then .error .processingError else .ok 0)).result =
        .ok (0 : Nat) ∧
      (retry_async 3 1 60
        (fun i => if i < 2 then .error .processingError else .ok 0)).attempts = 3) := by
  obtain ⟨h1, h2, h3⟩ := retryGo_spec mr b M op mr 0
  refine ⟨h1, by simpa using h2, by simpa using h3, by decide, by decide⟩

theorem joinW_nil : joinW [] = [] := rfl

theorem joinW_single (w : List Char) : joinW [w] = w := by
  simp [joinW, List.intercalate]

theorem joinW_cons₂ (w₁ w₂ : List Char) (t : List (List Char)) :
    joinW (w₁ :: w₂ :: t) = w₁ ++ ' ' :: joinW (w₂ :: t) := by
  simp [joinW, List.intercalate]

theorem splitWsAux_append (w rest acc : List Char)
    (hw : ∀ c ∈ w, c.isWhitespace = false) :
    splitWsAux (w ++ rest) acc = splitWsAux rest (w.reverse ++ acc) := by
  induction w generalizing acc with
  | nil => simp [splitWsAux]
  | cons c w' ih =>
      have hc : c.isWhitespace = false := hw c (by simp)
      simp only [List.cons_append, splitWsAux, hc, Bool.false_eq_true, if_false,
        List.append_eq]
      rw [ih (c :: acc) (fun d hd => hw d (by simp [hd]))]
      simp [List.append_assoc]

theorem splitWs_joinW (ws : List (List Char))
    (h : ∀ w ∈ ws, w ≠ [] ∧ ∀ c ∈ w, c.isWhitespace = false) :
    splitWs (joinW ws) = ws := by
  induction ws with
  | nil => rfl
  | cons w t ih =>
      obtain ⟨hw, hwc⟩ := h w (by simp)
      cases t with
      | nil =>
          rw [joinW_single]
          unfold splitWs
          have := splitWsAux_append w [] [] hwc
          simp only [List.append_nil] at this
          rw [this]
          simp [splitWsAux, hw, List.isEmpty_iff]
      | cons w₂ t' =>
          rw [joinW_cons₂]
          unfold splitWs
          rw [splitWsAux_append w (' ' :: joinW (w₂ :: t')) [] hwc]
          simp only [List.append_nil, splitWsAux]
          have hws : (' ').isWhitespace = true := rfl
          rw [if_pos hws]
          have hne : (w.reverse.isEmpty) = false := by
            simp [List.isEmpty_iff, hw]
          rw [if_neg (by simp [hne])]
          simp only [List.reverse_reverse]
          have ihr := ih (fun x hx => h x (by simp [hx]))
          unfold splitWs at ihr
          rw [ihr]

theorem splitWsAux_words (l : List Char) :
    ∀ acc : List Char, (∀ c ∈ acc, c.isWhitespace = false) →
      ∀ w ∈ splitWsAux l acc, w ≠ [] ∧ ∀ c ∈ w, c.isWhitespace = false := by
  induction l with
  | nil =>
      intro acc hacc w hw
      simp only [splitWsAux] at hw
      by_cases he : acc.isEmpty
      · rw [if_pos he] at hw
        simp at hw
      · rw [if_neg he] at hw
        simp only [List.mem_singleton] at hw
        subst hw
        refine ⟨?_, ?_⟩
        · simp only [ne_eq, List.reverse_eq_nil_iff]
          simpa [List.isEmpty_iff] using he
        · intro c hc
          exact hacc c (List.mem_reverse.mp hc)
  | cons c cs ih =>
      intro acc hacc w hw
      simp only [splitWsAux] at hw
      by_cases hc : c.isWhitespace
      · rw [if_pos hc] at hw
        by_cases he : acc.isEmpty
        · rw [if_pos he] at hw
          exact ih [] (by simp) w hw
        · rw [if_neg he] at hw
          rcases List.mem_cons.mp hw with h | h
          · subst h
            refine ⟨?_, ?_⟩
            · simp only [ne_eq, List.reverse_eq_nil_iff]
              simpa [List.isEmpty_iff] using he
            · intro d hd
              exact hacc d (List.mem_reverse.mp hd)
          · exact ih [] (by simp) w h
      · rw [if_neg hc] at hw
        refine ih (c :: acc) ?_ w hw
        intro d hd
        rcases List.mem_cons.mp hd with h | h
        · subst h
          simpa using hc
        · exact hacc d h

/-- Every word produced by `splitWs` is non-empty and whitespace-free. -/
theorem splitWs_words (l : List Char) :
    ∀ w ∈ splitWs l, w ≠ [] ∧ ∀ c ∈ w, c.isWhitespace = false :=
  splitWsAux_words l [] (by simp)

theorem chunksFrom_ne_nil (size step : Nat) (hstep : step ≠ 0)
    (ws : List (List Char)) (hws : ws ≠ []) :
    chunksFrom size step ws ≠ [] := by
  rw [chunksFrom_cons size step hstep ws hws]
  simp

theorem mem_of_mem_chunksFrom (size step : Nat) (hstep : step ≠ 0) :
    ∀ ws : List (List Char), ∀ cw ∈ chunksFrom size step ws, ∀ x ∈ cw, x ∈ ws := by
  intro ws
  by_cases hws : ws = []
  · subst hws
    rw [chunksFrom_nil]
    simp
  · rw [chunksFrom_cons size step hstep ws hws]
    intro cw hcw x hx
    rcases List.mem_cons.mp hcw with h | h
    · subst h
      exact List.take_subset size ws hx
    · exact List.drop_subset step ws
        (mem_of_mem_chunksFrom size step hstep (ws.drop step) cw h x hx)
termination_by ws => ws.length
decreasing_by
  have : 0 < ws.length := List.length_pos.mpr hws
  simp only [List.length_drop]
  omega

/-- Concatenating, in order, the first `step` words of every chunk window
recovers the original word sequence. -/
theorem chunksFrom_flatten_take (size step : Nat) (hstep : step ≠ 0)
    (hss : step ≤ size) (ws : List (List Char)) :
    ((chunksFrom size step ws).map (fun cw => cw.take step)).flatten = ws := by
  by_cases hws : ws = []
  · subst hws
    rw [chunksFrom_nil]
    rfl
  · rw [chunksFrom_cons size step hstep ws hws]
    simp only [List.map_cons, List.flatten_cons]
    rw [chunksFrom_flatten_take size step hstep hss (ws.drop step)]
    rw [List.take_take, Nat.min_eq_left hss]
    exact List.take_append_drop step ws
termination_by ws.length
decreasing_by
  have : 0 < ws.length := List.length_pos.mpr hws
  simp only [List.length_drop]
  omega

theorem getLast?_drop_of_ne_nil :
    ∀ (n : Nat) (l : List α), l.drop n ≠ [] → (l.drop n).getLast? = l.getLast? := by
  intro n
  induction n with
  | zero => intro l _; rfl
  | succ n ih =>
      intro l hne
      cases l with
      | nil => simp at hne
      | cons a t =>
          simp only [List.drop_succ_cons] at hne ⊢
          rw [ih t hne]
          have ht : t ≠ [] := by
            intro h
            subst h
            simp at hne
          cases t with
          | nil => exact absurd rfl ht
          | cons b t' => rw [List.getLast?_cons_cons]

/-- The last chunk window contains the last word. -/
theorem chunksFrom_getLast (size step : Nat) (hstep : step ≠ 0) (hss : step ≤ size)
    (ws : List (List Char)) (hws : ws ≠ []) :
    ∃ lc w, (chunksFrom size step ws).getLast? = some lc ∧
      ws.getLast? = some w ∧ w ∈ lc := by
  rw [chunksFrom_cons size step hstep ws hws]
  by_cases hd : ws.drop step = []
  · rw [hd, chunksFrom_nil]
    have hlen : ws.length ≤ step := by
      by_contra hcon
      have : ws.drop step ≠ [] := by
        simp only [ne_eq, List.drop_eq_nil_iff]
        omega
      exact this hd
    have htake : ws.take size = ws := List.take_of_length_le (by omega)
    obtain ⟨w, hw⟩ : ∃ w, ws.getLast? = some w := by
      cases hlast : ws.getLast? with
      | none => exact absurd (List.getLast?_eq_none_iff.mp hlast) hws
      | some w => exact ⟨w, rfl⟩
    refine ⟨ws.take size, w, rfl, hw, ?_⟩
    rw [htake]
    exact List.mem_of_getLast?_eq_some hw
  · obtain ⟨lc, w, hlc, hw, hmem⟩ :=
      chunksFrom_getLast size step hstep hss (ws.drop step) hd
    refine ⟨lc, w, ?_, ?_, hmem⟩
    · have hcne := chunksFrom_ne_nil size step hstep (ws.drop step) hd
      cases hc : chunksFrom size step (ws.drop step) with
      | nil => exact absurd hc hcne
      | cons a t =>
          rw [List.getLast?_cons_cons]
          rw [hc] at hlc
          exact hlc
    · rw [← getLast?_drop_of_ne_nil step ws hd]
      exact hw
termination_by ws.length
decreasing_by
  have : 0 < ws.length := List.length_pos.mpr hws
  simp only [List.length_drop]
  omega

/-- C6 counterexample: with the processor's `chunk_size = 1000 >
chunk_overlap = 200`, the text consisting of a single space is a non-empty
text, yet `create_chunks` returns no chunks (Python `" ".split()` is `[]`),
refuting the claim that chunking non-empty text yields at least one chunk. -/
theorem C6_whitespace_only_text_yields_no_chunks :
    (200 < 1000) ∧ ([' '] : List Char) ≠ [] ∧ create_chunks 1000 200 [' '] = [] := by
  decide

/-- C6 (amended): for all `chunk_size_words > chunk_overlap_words >= 0`,
chunking empty text yields an empty sequence; chunking text with a non-empty
whitespace-split word sequence yields at least one chunk; and concatenating,
in document order, the first `chunk_size_words - chunk_overlap_words` words
of each chunk reconstructs the original whitespace-split word sequence
exactly. -/
theorem C6_chunking (size overlap : Nat) (h : overlap < size) (text : List Char) :
    (text = [] → create_chunks size overlap text = []) ∧
    (splitWs text ≠ [] → create_chunks size overlap text ≠ []) ∧
    ((create_chunks size overlap text).map
        (fun ch => (splitWs ch).take (size - overlap))).flatten = splitWs text := by
  have hstep : size - overlap ≠ 0 := by omega
  have hss : size - overlap ≤ size := by omega
  refine ⟨?_, ?_, ?_⟩
  · intro ht
    subst ht
    unfold create_chunks
    rw [show splitWs [] = [] from rfl, chunksFrom_nil]
    rfl
  · intro hw
    unfold create_chunks
    have hne := chunksFrom_ne_nil size (size - overlap) hstep (splitWs text) hw
    intro hc
    exact hne (by simpa using hc)
  · unfold create_chunks
    rw [List.map_map]
    rw [List.map_congr_left (g := fun cw => cw.take (size - overlap)) ?_]
    · exact chunksFrom_flatten_take size (size - overlap) hstep hss (splitWs text)
    · intro cw hcw
      simp only [Function.comp_apply]
      rw [splitWs_joinW cw ?_]
      intro x hx
      exact splitWs_words text x
        (mem_of_mem_chunksFrom size (size - overlap) hstep (splitWs text) cw hcw x hx)

/-- Witness for C6 at `size = 1000`, `overlap = 200`, text `"a"`. -/
theorem C6_chunking_witness :
    (200 < 1000) ∧
    ((['a'] : List Char) = [] → create_chunks 1000 200 ['a'] = []) ∧
    (splitWs ['a'] ≠ [] → create_chunks 1000 200 ['a'] ≠ []) ∧
    ((create_chunks 1000 200 ['a']).map
        (fun ch => (splitWs ch).take (1000 - 200))).flatten = splitWs ['a'] :=
  ⟨by decide, C6_chunking 1000 200 (by decide) ['a']⟩

/-- C10: under the processor's configuration (`chunk_size = 1000`,
`chunk_overlap = 200`), every word of a text with a non-empty
whitespace-split word sequence occurs in at least one chunk produced by
`create_chunks`, and the final chunk contains the last word, so no suffix of
the document is dropped. -/
theorem C10_no_word_dropped (text : List Char) (h : splitWs text ≠ []) :
    (∀ w ∈ splitWs text, ∃ ch ∈ create_chunks 1000 200 text, w ∈ splitWs ch) ∧
    (∃ lc w, (create_chunks 1000 200 text).getLast? = some lc ∧
      (splitWs text).getLast? = some w ∧ w ∈ splitWs lc) := by
  have hstep : (1000 - 200 : Nat) ≠ 0 := by decide
  have hss : (1000 - 200 : Nat) ≤ 1000 := by decide
  have hnice : ∀ cw ∈ chunksFrom 1000 (1000 - 200) (splitWs text),
      ∀ x ∈ cw, x ≠ [] ∧ ∀ c ∈ x, c.isWhitespace = false := by
    intro cw hcw x hx
    exact splitWs_words text x
      (mem_of_mem_chunksFrom 1000 (1000 - 200) hstep (splitWs text) cw hcw x hx)
  constructor
  · intro w hw
    have hflat := chunksFrom_flatten_take 1000 (1000 - 200) hstep hss (splitWs text)
    rw [← hflat] at hw
    obtain ⟨piece, hpiece, hwp⟩ := List.mem_flatten.mp hw
    obtain ⟨cw, hcw, hcw2⟩ := List.mem_map.mp hpiece
    refine ⟨joinW cw, ?_, ?_⟩
    · unfold create_chunks
      exact List.mem_map_of_mem joinW hcw
    · rw [splitWs_joinW cw (hnice cw hcw)]
      subst hcw2
      exact List.take_subset _ _ hwp
  · obtain ⟨lc, w, hlc, hw, hmem⟩ :=
      chunksFrom_getLast 1000 (1000 - 200) hstep hss (splitWs text) h
    have hlcmem : lc ∈ chunksFrom 1000 (1000 - 200) (splitWs text) :=
      List.mem_of_getLast?_eq_some hlc
    refine ⟨joinW lc, w, ?_, hw, ?_⟩
    · unfold create_chunks
      rw [List.getLast?_map, hlc]
      rfl
    · rw [splitWs_joinW lc (hnice lc hlcmem)]
      exact hmem

/-- Witness for C10 at the two-word text `"a b"`. -/
theorem C10_no_word_dropped_witness :
    (splitWs ['a', ' ', 'b'] ≠ []) ∧
    ((∀ w ∈ splitWs ['a', ' ', 'b'],
        ∃ ch ∈ create_chunks 1000 200 ['a', ' ', 'b'], w ∈ splitWs ch) ∧
      (∃ lc w, (create_chunks 1000 200 ['a', ' ', 'b']).getLast? = some lc ∧
        (splitWs ['a', ' ', 'b']).getLast? = some w ∧ w ∈ splitWs lc)) :=
  ⟨by decide, C10_no_word_dropped ['a', ' ', 'b'] (by decide)⟩

theorem npArgsort_pairwise (sims : List ℚ) :
    (npArgsort sims).Pairwise (fun i j => sims.getD i 0 ≤ sims.getD j 0) := by
  haveI : IsTotal Nat (fun i j => sims.getD i 0 ≤ sims.getD j 0) :=
    ⟨fun a b => le_total _ _⟩
  haveI : IsTrans Nat (fun i j => sims.getD i 0 ≤ sims.getD j 0) :=
    ⟨fun a b c hab hbc => le_trans hab hbc⟩
  exact List.sorted_insertionSort _ _

theorem npArgsort_perm_range (sims : List ℚ) :
    (npArgsort sims).Perm (List.range sims.length) :=
  List.perm_insertionSort _ _

theorem mem_npArgsort_lt (sims : List ℚ) (i : Nat) (h : i ∈ npArgsort sims) :
    i < sims.length :=
  List.mem_range.mp ((npArgsort_perm_range sims).mem_iff.mp h)

theorem rankIndices_pairwise (sims : List ℚ) (top_k : Nat) :
    (rankIndices sims top_k).Pairwise (fun i j => sims.getD i 0 ≤ sims.getD j 0) := by
  unfold rankIndices lastSlice
  split
  · exact npArgsort_pairwise sims
  · exact List.Pairwise.sublist (List.drop_sublist _ _) (npArgsort_pairwise sims)

theorem length_rankIndices_le (sims : List ℚ) (top_k : Nat) (hk : top_k ≠ 0) :
    (rankIndices sims top_k).length ≤ top_k := by
  unfold rankIndices lastSlice npArgsort
  rw [if_neg hk]
  simp only [List.length_drop, List.length_insertionSort, List.length_range]
  omega

theorem mem_rankIndices_lt (sims : List ℚ) (top_k : Nat) (i : Nat)
    (h : i ∈ rankIndices sims top_k) : i < sims.length := by
  unfold rankIndices lastSlice at h
  split at h
  · exact mem_npArgsort_lt sims i h
  · exact mem_npArgsort_lt sims i (List.drop_subset _ _ h)

theorem map_getD_range (l : List (List Char)) :
    (List.range l.length).map (fun i => l.getD i []) = l := by
  apply List.ext_getElem
  · simp
  · intro i h1 h2
    simp only [List.getElem_map, List.getElem_range, List.getD_eq_getElem?_getD,
      List.getElem?_eq_getElem h2, Option.getD_some]

theorem filterMap_toOption_all_ok (embed : List Char → Except PdfError (List ℚ)) :
    ∀ chunks : List (List Char), (∀ c ∈ chunks, ∃ v, embed c = .ok v) →
      (chunks.filterMap (fun c => (embed c).toOption)).length = chunks.length := by
  intro chunks h
  induction chunks with
  | nil => rfl
  | cons c t ih =>
      obtain ⟨v, hv⟩ := h c (by simp)
      have hce : (embed c).toOption = some v := by rw [hv]; rfl
      simp only [List.filterMap_cons, hce, List.length_cons]
      rw [ih (fun x hx => h x (by simp [hx]))]

/-- C4 counterexample: `np.argsort(similarities)[-top_k:]` keeps the
ascending order of `argsort`, so the ranker returns the selected chunks
lowest-similarity-first. With query embedding `[1, 0]`, chunk `"a"` embedded
as `[1, 0]` (cosine similarity 1, since these are unit vectors the dot
product is exactly the cosine) and chunk `"b"` as `[0, 1]` (cosine 0), the
returned sequence is `["b", "a"]`: the first returned chunk has strictly
smaller similarity than the second, refuting highest-similarity-first. -/
theorem C4_highest_first_counterexample :
    find_relevant_chunks
        (fun s => if s = ['b'] then .ok [0, 1] else .ok [1, 0]) dotQ
        ['q'] [['a'], ['b']] 3 = .ok [['b'], ['a']] ∧
    dotQ [1, 0] [0, 1] < dotQ [1, 0] [1, 0] := by
  constructor
  · have h1 : dotQ [1, 0] [1, 0] = 1 := by norm_num [dotQ]
    have h2 : dotQ [1, 0] [0, 1] = 0 := by norm_num [dotQ]
    simp only [find_relevant_chunks, List.filterMap, Except.toOption, List.map,
      List.cons.injEq, Char.reduceEq, and_true, and_false, if_false, if_true,
      ite_false, ite_true]
    simp only [h1, h2]
    decide
  · norm_num [dotQ]

/-- C4 (amended): the sequence of chunk indices selected by the ranker
(`np.argsort(similarities)[-top_k:]`, and likewise after the bounds filter
used to index the chunk list) is ordered lowest similarity first — the
similarity scores are non-decreasing along the returned order, so the
highest-similarity chunk comes last, not first. -/
theorem C4_rank_order_lowest_first (sims : List ℚ) (top_k n : Nat) :
    (rankIndices sims top_k).Pairwise (fun i j => sims.getD i 0 ≤ sims.getD j 0) ∧
    ((rankIndices sims top_k).filter (fun i => i < n)).Pairwise
      (fun i j => sims.getD i 0 ≤ sims.getD j 0) :=
  ⟨rankIndices_pairwise sims top_k,
   List.Pairwise.sublist (List.filter_sublist _) (rankIndices_pairwise sims top_k)⟩

/-- C9 counterexample: with `top_k = 0`, the Python slice
`np.argsort(similarities)[-0:]` is the whole array (`-0 == 0`), so the
ranker returns every chunk — more than `top_k` — refuting the bound for
`top_k = 0`. -/
theorem C9_topk_zero_counterexample :
    find_relevant_chunks
        (fun s => if s = ['b'] then .ok [0, 1] else .ok [1, 0]) dotQ
        ['q'] [['a'], ['b']] 0 = .ok [['b'], ['a']] ∧
    ¬ (([['b'], ['a']] : List (List Char)).length ≤ 0) := by
  constructor
  · have h1 : dotQ [1, 0] [1, 0] = 1 := by norm_num [dotQ]
    have h2 : dotQ [1, 0] [0, 1] = 0 := by norm_num [dotQ]
    simp only [find_relevant_chunks, List.filterMap, Except.toOption, List.map,
      List.cons.injEq, Char.reduceEq, and_true, and_false, if_false, if_true,
      ite_false, ite_true]
    simp only [h1, h2]
    decide
  · decide

/-- C9 (amended): for every positive `top_k`, the ranking step returns at
most `top_k` results, each an element of the given chunk sequence (the
bounds filter keeps every index inside the chunk list even when some
per-chunk embeddings fail and are skipped); an empty chunk sequence yields
an empty result without error; and when every embedding succeeds and there
are at most `top_k` chunks, all chunks are returned (as a permutation, in
ascending-similarity order). -/
theorem C9_rank_bounds (embed : List Char → Except PdfError (List ℚ))
    (sim : List ℚ → List ℚ → ℚ) (query : List Char) (chunks : List (List Char))
    (top_k : Nat) (hk : 1 ≤ top_k) :
    (∀ l, find_relevant_chunks embed sim query chunks top_k = .ok l →
        l.length ≤ top_k ∧ ∀ c ∈ l, c ∈ chunks) ∧
    (chunks = [] → find_relevant_chunks embed sim query chunks top_k = .ok []) ∧
    (∀ qe, embed query = .ok qe → (∀ c ∈ chunks, ∃ v, embed c = .ok v) →
      chunks.length ≤ top_k →
      ∃ l, find_relevant_chunks embed sim query chunks top_k = .ok l ∧
        l.Perm chunks) := by
  refine ⟨?_, ?_, ?_⟩
  · intro l hl
    by_cases hc : chunks.isEmpty
    · unfold find_relevant_chunks at hl
      rw [if_pos hc] at hl
      injection hl with hl
      subst hl
      exact ⟨by simp, by simp⟩
    · cases hq : embed query with
      | error e =>
          unfold find_relevant_chunks at hl
          rw [if_neg hc, hq] at hl
          simp at hl
      | ok qe =>
          unfold find_relevant_chunks at hl
          rw [if_neg hc, hq] at hl
          dsimp only at hl
          split at hl
          · simp at hl
          · injection hl with hl
            subst hl
            constructor
            · rw [List.length_map]
              calc (List.filter _ (rankIndices _ top_k)).length
                  ≤ (rankIndices _ top_k).length := List.length_filter_le _ _
                _ ≤ top_k := length_rankIndices_le _ top_k (by omega)
            · intro c hcmem
              obtain ⟨i, hi, hic⟩ := List.mem_map.mp hcmem
              have hilt : i < chunks.length := by
                have := (List.mem_filter.mp hi).2
                simpa using this
              subst hic
              rw [List.getD_eq_getElem?_getD, List.getElem?_eq_getElem hilt,
                Option.getD_some]
              exact List.getElem_mem hilt
  · intro hc
    subst hc
    rfl
  · intro qe hq hall hlen
    by_cases hc : chunks = []
    · subst hc
      exact ⟨[], rfl, by simp⟩
    · have hcne : ¬ (chunks.isEmpty = true) := by
        simp [List.isEmpty_iff, hc]
      have hcel : (chunks.filterMap (fun c => (embed c).toOption)).length =
          chunks.length :=
        filterMap_toOption_all_ok embed chunks hall
      have hceb : ¬ ((chunks.filterMap (fun c => (embed c).toOption)).isEmpty = true) := by
        simp only [List.isEmpty_iff]
        intro h0
        exact hc (List.length_eq_zero.mp (by rw [← hcel, h0]; rfl))
      unfold find_relevant_chunks
      rw [if_neg hcne, hq]
      dsimp only
      rw [if_neg hceb]
      refine ⟨_, rfl, ?_⟩
      have hsl : ((chunks.filterMap (fun c => (embed c).toOption)).map
          (fun ce => sim qe ce)).length = chunks.length := by
        rw [List.length_map, hcel]
      have hri : rankIndices ((chunks.filterMap (fun c => (embed c).toOption)).map
          (fun ce => sim qe ce)) top_k =
          npArgsort ((chunks.filterMap (fun c => (embed c).toOption)).map
            (fun ce => sim qe ce)) := by
        unfold rankIndices lastSlice
        rw [if_neg (by omega)]
        have hlen2 : (npArgsort ((chunks.filterMap (fun c => (embed c).toOption)).map
            (fun ce => sim qe ce))).length = chunks.length := by
          unfold npArgsort
          rw [List.length_insertionSort, List.length_range, hsl]
        rw [hlen2, show chunks.length - top_k = 0 from by omega, List.drop_zero]
      rw [hri]
      have hfil : (npArgsort ((chunks.filterMap (fun c => (embed c).toOption)).map
          (fun ce => sim qe ce))).filter (fun i => decide (i < chunks.length)) =
          npArgsort ((chunks.filterMap (fun c => (embed c).toOption)).map
            (fun ce => sim qe ce)) := by
        rw [List.filter_eq_self]
        intro i hi
        have := mem_npArgsort_lt _ i hi
        rw [hsl] at this
        simpa using this
      rw [hfil]
      have hperm := npArgsort_perm_range
        ((chunks.filterMap (fun c => (embed c).toOption)).map (fun ce => sim qe ce))
      rw [hsl] at hperm
      have h2 : (List.range chunks.length).map (fun i => chunks.getD i []) = chunks :=
        map_getD_range chunks
      have h3 := hperm.map (fun i => chunks.getD i [])
      rw [h2] at h3
      exact h3

/-- A trivially successful embedding provider, used to witness C9. -/
def constEmbed : List Char → Except PdfError (List ℚ) :=
  fun _ => .ok [1]

/-- Witness for C9 at `top_k = 3` with two chunks and an always-succeeding
embedding provider. -/
theorem C9_rank_bounds_witness :
    ((1 : Nat) ≤ 3) ∧
    ((∀ l, find_relevant_chunks constEmbed dotQ ['q'] [['a'], ['b']] 3 = .ok l →
        l.length ≤ 3 ∧ ∀ c ∈ l, c ∈ [['a'], ['b']]) ∧
      (([['a'], ['b']] : List (List Char)) = [] →
        find_relevant_chunks constEmbed dotQ ['q'] [['a'], ['b']] 3 = .ok []) ∧
      (∀ qe, constEmbed ['q'] = .ok qe →
        (∀ c ∈ [['a'], ['b']], ∃ v, constEmbed c = .ok v) →
        ([['a'], ['b']] : List (List Char)).length ≤ 3 →
        ∃ l, find_relevant_chunks constEmbed dotQ ['q'] [['a'], ['b']] 3 = .ok l ∧
          l.Perm [['a'], ['b']])) :=
  ⟨by decide, C9_rank_bounds constEmbed dotQ ['q'] [['a'], ['b']] 3 (by decide)⟩
